import Mathlib

set_option linter.unusedSectionVars false

/-!
Verification of the rg3d sound renderer (`rg3d-sound/src/renderer/mod.rs`).

The renderer code is embedded shallowly.  Sample values are taken in an
abstract numeric carrier `α` (with the arithmetic operations the Rust code
uses on `f32`), instantiated with `ℚ` for the exact-arithmetic claims and
with an IEEE-style carrier `FSample` (finite rationals, infinities, NaN)
for the non-finite-propagation claim.

Collaborator types that live outside the renderer module
(`GenericSource`, `SpatialSource`, `Listener`, `DistanceModel`,
`math::lerpf`, the per-context render dispatch) are modelled from the
specification, as documented on each definition.
-/

section Model

variable (α : Type) [Zero α] [One α] [Add α] [Sub α] [Mul α] [Div α] [NatCast α]

/-- Modelled from the spec: `DistanceModel` is "a selector (e.g., Linear /
Inverse / Exponential falloff) consumed as a parameter; its attenuation
formula is external to this core".  Its definition is not under `src/`. -/
inductive DistanceModel : Type where
  | LinearDistance : DistanceModel
  | InverseDistance : DistanceModel
  | ExponentDistance : DistanceModel
deriving DecidableEq, Repr

/-- Modelled from the spec: `Listener` holds "position and orientation used
to compute distance and directional panning for Spatial sources"; it is
read-only to the renderer and its definition is not under `src/`. -/
structure Listener : Type where
  position : α × α × α
  orientation : α × α × α

/-- Modelled from the spec: `GenericSource` (not under `src/`) "holds a gain
scalar, a panning scalar in [-1, 1]", "exposes a finite, restartable lazy
sequence of already-decoded stereo sample pairs for the current tick
(frame samples)" and "privately retains the last rendered left/right gain
from the previous tick (initially absent/unset)".  `channel_count` is the
mono/stereo attribute the Renderer Selector classifies on (spec 4.3). -/
structure GenericSource : Type where
  gain : α
  panning : α
  frame_samples : List (α × α)
  last_left_gain : Option α
  last_right_gain : Option α
  channel_count : Nat

/-- Modelled from the spec: a Spatial source "wraps a Generic payload" and
exposes `get_distance_gain(listener, model)` and `get_panning(listener)`;
both formulas are "external to this core", so they are held abstract as
function-valued fields. -/
structure SpatialSource : Type where
  generic : GenericSource α
  get_distance_gain : Listener α → DistanceModel → α
  get_panning : Listener α → α

/-- The `SoundSource` enum with variants `Generic` and `Spatial`
(`source/mod.rs`, used by `renderer/mod.rs`). -/
inductive SoundSource : Type where
  | Generic : GenericSource α → SoundSource
  | Spatial : SpatialSource α → SoundSource

variable {α}

/-- Modelled from the spec: `math::lerpf` (rg3d-core, not under `src/`),
the linear interpolation `lerp(a, b, t)` used by the Click-Free Mixer. -/
def lerpf (a b t : α) : α :=
  a + (b - a) * t

/-- The accumulation loop of `render_with_params`
(`renderer/mod.rs:43-52`): zip the mutable mix buffer with the frame
samples of the source, stopping at the shorter of the two; each covered entry is
incremented by `lerpf last target t * raw`, and `t` advances by `step`. -/
def mixLoop (lastL lastR targetL targetR step : α) :
    α → List (α × α) → List (α × α) → List (α × α)
  | _, [], _ => []
  | _, buf, [] => buf
  | t, (outL, outR) :: buf, (rawL, rawR) :: samples =>
      (outL + lerpf lastL targetL t * rawL,
       outR + lerpf lastR targetR t * rawR) ::
        mixLoop lastL lastR targetL targetR step (t + step) buf samples

/-- `render_with_params` (`renderer/mod.rs:31-53`): computes
`step = 1.0 / mix_buffer.len()`, lazily initializes the
`last_left_gain` / `last_right_gain` to the given target gains
(`get_or_insert`), and accumulates the interpolated-gain samples into the
mix buffer.  Returns the updated source and buffer. -/
def render_with_params (source : GenericSource α) (left_gain right_gain : α)
    (mix_buffer : List (α × α)) : GenericSource α × List (α × α) :=
  let step : α := 1 / (mix_buffer.length : α)
  let last_left_gain : α := source.last_left_gain.getD left_gain
  let last_right_gain : α := source.last_right_gain.getD right_gain
  ({ source with
      last_left_gain := some last_left_gain,
      last_right_gain := some last_right_gain },
   mixLoop last_left_gain last_right_gain left_gain right_gain step 0
     mix_buffer source.frame_samples)

/-- `render_source_default` (`renderer/mod.rs:55-82`): computes the target
gains per variant, calls `render_with_params`, then stores the target gains
in the `last_left_gain` / `last_right_gain` fields of the source. -/
def render_source_default (source : SoundSource α) (listener : Listener α)
    (distance_model : DistanceModel) (mix_buffer : List (α × α)) :
    SoundSource α × List (α × α) :=
  match source with
  | .Generic generic =>
      let gain := generic.gain
      let panning := generic.panning
      let left_gain := gain * (1 + panning)
      let right_gain := gain * (1 - panning)
      let r := render_with_params generic left_gain right_gain mix_buffer
      (.Generic { r.1 with
          last_left_gain := some left_gain,
          last_right_gain := some right_gain },
       r.2)
  | .Spatial spatial =>
      let distance_gain := spatial.get_distance_gain listener distance_model
      let panning := spatial.get_panning listener
      let gain := distance_gain * spatial.generic.gain
      let left_gain := gain * (1 + panning)
      let right_gain := gain * (1 - panning)
      let r := render_with_params spatial.generic left_gain right_gain mix_buffer
      (.Spatial { spatial with generic :=
          { r.1 with
              last_left_gain := some left_gain,
              last_right_gain := some right_gain } },
       r.2)

/-- The generic payload of a source (for the Spatial variant, the wrapped
`GenericSource`, i.e. `spatial.generic()`). -/
def SoundSource.genericOf : SoundSource α → GenericSource α
  | .Generic g => g
  | .Spatial s => s.generic

variable (α)

/-- Modelled from the spec: the state the `HrtfRenderer` variant carries
(4.4): impulse-response data and per-source convolution history, and the
HRTF Convolution Engine processing it performs for qualifying mono sources.
Both are external to the renderer module under `src/`, so the engine is
held abstract as a function-valued field. -/
structure HrtfRenderer : Type where
  process : SoundSource α → Listener α → DistanceModel →
    List (α × α) → SoundSource α × List (α × α)

/-- The `Renderer` enum (`renderer/mod.rs:22-29`): the stateless `Default`
variant, or `HrtfRenderer` which "can be used *only* with mono sounds,
stereo sounds will be rendered through default renderer". -/
inductive Renderer : Type where
  | Default : Renderer
  | HrtfRenderer : HrtfRenderer α → Renderer

/-- Which of the two render paths a source was routed through. -/
inductive RenderPath : Type where
  | defaultPath : RenderPath
  | hrtfPath : RenderPath
deriving DecidableEq, Repr

variable {α}

/-- Modelled from the spec: the Renderer Selector (4.3), whose dispatch
code lives in the audio context outside `src/`: "If the active renderer is
Default, or the source is not eligible for HRTF (i.e., not a
single-channel/mono source), route through 4.1 + 4.2"; "If the active
renderer is HrtfRenderer and the source is mono, route through the HRTF
Convolution Engine".  The returned `RenderPath` records the route taken. -/
def render_source (renderer : Renderer α) (source : SoundSource α)
    (listener : Listener α) (distance_model : DistanceModel)
    (mix_buffer : List (α × α)) :
    RenderPath × (SoundSource α × List (α × α)) :=
  match renderer with
  | .Default =>
      (.defaultPath, render_source_default source listener distance_model mix_buffer)
  | .HrtfRenderer hrtf =>
      if source.genericOf.channel_count = 1 then
        (.hrtfPath, hrtf.process source listener distance_model mix_buffer)
      else
        (.defaultPath, render_source_default source listener distance_model mix_buffer)

/-- The Gain/Panning Calculator as the spec states it (4.1), written from
the words of the spec for comparison with `render_source_default`:
Generic source `(gain * (1 + panning), gain * (1 - panning))`; Spatial
source the same formula with `gain = distance_gain * generic_gain` and the
directional panning. -/
def targetGains (source : SoundSource α) (listener : Listener α)
    (distance_model : DistanceModel) : α × α :=
  match source with
  | .Generic g => (g.gain * (1 + g.panning), g.gain * (1 - g.panning))
  | .Spatial s =>
      let distance_gain := s.get_distance_gain listener distance_model
      let panning := s.get_panning listener
      let gain := distance_gain * s.generic.gain
      (gain * (1 + panning), gain * (1 - panning))

/-- Flat (non-interpolated) mixing as the spec states it: each covered
buffer entry is incremented by the constant target gain times the raw
sample; entries beyond the frame samples are unchanged. -/
def flatMix (left_gain right_gain : α) :
    List (α × α) → List (α × α) → List (α × α)
  | [], _ => []
  | buf, [] => buf
  | (outL, outR) :: buf, (rawL, rawR) :: samples =>
      (outL + left_gain * rawL, outR + right_gain * rawR) ::
        flatMix left_gain right_gain buf samples

/-- A zeroed mix buffer of length `n`. -/
def zeroBuf (n : Nat) : List (α × α) :=
  List.replicate n ((0 : α), (0 : α))

/-- Elementwise addition of two mix buffers. -/
def bufAdd (a b : List (α × α)) : List (α × α) :=
  List.zipWith (fun x y => (x.1 + y.1, x.2 + y.2)) a b

end Model

/-- An IEEE-754-style sample carrier: NaN, signed infinities, and finite
values (idealized as exact rationals).  Used to state that the render path
is total on, and propagates, non-finite inputs. -/
inductive FSample : Type where
  | nan : FSample
  | inf : Bool → FSample
  | fin : ℚ → FSample
deriving DecidableEq, Repr

namespace FSample

/-- Negation (IEEE: flips the sign of an infinity, NaN stays NaN). -/
def neg : FSample → FSample
  | nan => nan
  | inf s => inf (!s)
  | fin q => fin (-q)

/-- IEEE-style addition: NaN is absorbing, opposite infinities give NaN,
an infinity absorbs any finite value. -/
def add : FSample → FSample → FSample
  | nan, _ => nan
  | _, nan => nan
  | inf s, inf t => if s = t then inf s else nan
  | inf s, fin _ => inf s
  | fin _, inf t => inf t
  | fin a, fin b => fin (a + b)

/-- IEEE-style subtraction: `a - b = a + (-b)`. -/
def sub (a b : FSample) : FSample :=
  add a b.neg

/-- IEEE-style multiplication: NaN is absorbing, `inf * 0` is NaN,
otherwise an infinity carries the sign of the product. -/
def mul : FSample → FSample → FSample
  | nan, _ => nan
  | _, nan => nan
  | inf s, inf t => inf (xor s t)
  | inf s, fin q => if q = 0 then nan else inf (xor s (decide (q < 0)))
  | fin q, inf t => if q = 0 then nan else inf (xor (decide (q < 0)) t)
  | fin a, fin b => fin (a * b)

/-- IEEE-style division (unsigned zero): NaN is absorbing, `inf / inf` is
NaN, a finite value over an infinity is zero, a nonzero finite value over
zero is a signed infinity, `0 / 0` is NaN. -/
def div : FSample → FSample → FSample
  | nan, _ => nan
  | _, nan => nan
  | inf _, inf _ => nan
  | inf s, fin q => inf (xor s (decide (q < 0)))
  | fin _, inf _ => fin 0
  | fin a, fin b =>
      if b = 0 then (if a = 0 then nan else inf (decide (a < 0)))
      else fin (a / b)

instance : Zero FSample := ⟨fin 0⟩
instance : One FSample := ⟨fin 1⟩
instance : Add FSample := ⟨add⟩
instance : Sub FSample := ⟨sub⟩
instance : Mul FSample := ⟨mul⟩
instance : Div FSample := ⟨div⟩
instance : NatCast FSample := ⟨fun n => fin n⟩

/-- A sample is finite when it is neither NaN nor an infinity. -/
def isFinite : FSample → Bool
  | fin _ => true
  | _ => false

end FSample

section Lemmas

variable {α : Type} [Zero α] [One α] [Add α] [Sub α] [Mul α] [Div α] [NatCast α]

/-- The value of the loop variable `t` after `i` increments by `step`,
starting from `t` (the code accumulates `t += step` once per sample). -/
def tAfter (step t : α) : Nat → α
  | 0 => t
  | i + 1 => tAfter step (t + step) i

theorem mixLoop_length (lL lR tL tR step : α) :
    ∀ (t : α) (buf samples : List (α × α)),
      (mixLoop lL lR tL tR step t buf samples).length = buf.length := by
  intro t buf
  induction buf generalizing t with
  | nil => intro samples; cases samples <;> rfl
  | cons b bs ih =>
      intro samples
      cases samples with
      | nil => rfl
      | cons s ss =>
          obtain ⟨bL, bR⟩ := b
          obtain ⟨sL, sR⟩ := s
          simp [mixLoop, ih]

theorem mixLoop_getElem (lL lR tL tR step : α) :
    ∀ (t : α) (buf samples : List (α × α)) (i : Nat)
      (h1 : i < buf.length) (h2 : i < samples.length),
      (mixLoop lL lR tL tR step t buf samples)[i]? =
        some ((buf.get ⟨i, h1⟩).1 +
                lerpf lL tL (tAfter step t i) * (samples.get ⟨i, h2⟩).1,
              (buf.get ⟨i, h1⟩).2 +
                lerpf lR tR (tAfter step t i) * (samples.get ⟨i, h2⟩).2) := by
  intro t buf
  induction buf generalizing t with
  | nil => intro samples i h1 h2; simp at h1
  | cons b bs ih =>
      intro samples i h1 h2
      cases samples with
      | nil => simp at h2
      | cons s ss =>
          obtain ⟨bL, bR⟩ := b
          obtain ⟨sL, sR⟩ := s
          cases i with
          | zero => simp [mixLoop, tAfter]
          | succ j =>
              have h1' : j < bs.length := Nat.lt_of_succ_lt_succ h1
              have h2' : j < ss.length := Nat.lt_of_succ_lt_succ h2
              simpa [mixLoop, tAfter] using ih (t + step) ss j h1' h2'

theorem mixLoop_getElem_of_ge (lL lR tL tR step : α) :
    ∀ (t : α) (buf samples : List (α × α)) (i : Nat),
      samples.length ≤ i →
      (mixLoop lL lR tL tR step t buf samples)[i]? = buf[i]? := by
  intro t buf
  induction buf generalizing t with
  | nil => intro samples i _; cases samples <;> rfl
  | cons b bs ih =>
      intro samples i hge
      cases samples with
      | nil => rfl
      | cons s ss =>
          obtain ⟨bL, bR⟩ := b
          obtain ⟨sL, sR⟩ := s
          cases i with
          | zero => exact absurd hge (by simp)
          | succ j =>
              have hge' : ss.length ≤ j := Nat.le_of_succ_le_succ hge
              simpa [mixLoop] using ih (t + step) ss j hge'

theorem mixLoop_take (lL lR tL tR step : α) :
    ∀ (t : α) (buf samples : List (α × α)),
      mixLoop lL lR tL tR step t buf samples =
        mixLoop lL lR tL tR step t buf (samples.take buf.length) := by
  intro t buf
  induction buf generalizing t with
  | nil => intro samples; cases samples <;> rfl
  | cons b bs ih =>
      intro samples
      cases samples with
      | nil => rfl
      | cons s ss =>
          obtain ⟨bL, bR⟩ := b
          obtain ⟨sL, sR⟩ := s
          simp only [mixLoop, List.length_cons, List.take_succ_cons]
          rw [ih (t + step) ss]

theorem mixLoop_nil (lL lR tL tR step t : α) (samples : List (α × α)) :
    mixLoop lL lR tL tR step t [] samples = [] := by
  cases samples <;> rfl

end Lemmas

section RatLemmas

theorem tAfter_rat (step : ℚ) : ∀ (i : Nat) (t : ℚ),
    tAfter step t i = t + i * step := by
  intro i
  induction i with
  | zero => intro t; simp [tAfter]
  | succ j ih =>
      intro t
      have := ih (t + step)
      rw [tAfter, this]
      push_cast
      ring

theorem mixLoop_flat (a b step : ℚ) :
    ∀ (t : ℚ) (buf samples : List (ℚ × ℚ)),
      mixLoop a b a b step t buf samples = flatMix a b buf samples := by
  intro t buf
  induction buf generalizing t with
  | nil => intro samples; cases samples <;> rfl
  | cons x xs ih =>
      intro samples
      cases samples with
      | nil => rfl
      | cons s ss =>
          obtain ⟨xL, xR⟩ := x
          obtain ⟨sL, sR⟩ := s
          simp [mixLoop, flatMix, lerpf, ih]

theorem mixLoop_bufAdd (lL lR tL tR step : ℚ) :
    ∀ (t : ℚ) (b z samples : List (ℚ × ℚ)),
      mixLoop lL lR tL tR step t (bufAdd b z) samples =
        bufAdd b (mixLoop lL lR tL tR step t z samples) := by
  intro t b
  induction b generalizing t with
  | nil => intro z samples; simp [bufAdd, mixLoop_nil]
  | cons x xs ih =>
      intro z samples
      cases z with
      | nil => simp [bufAdd, mixLoop_nil]
      | cons y ys =>
          cases samples with
          | nil => rfl
          | cons s ss =>
              obtain ⟨xL, xR⟩ := x
              obtain ⟨yL, yR⟩ := y
              obtain ⟨sL, sR⟩ := s
              have htail := ih (t + step) ys ss
              simp only [bufAdd] at htail
              simp only [bufAdd, List.zipWith_cons_cons, mixLoop, add_assoc, htail]

theorem bufAdd_zeroBuf (b : List (ℚ × ℚ)) :
    bufAdd b (zeroBuf b.length) = b := by
  induction b with
  | nil => rfl
  | cons x xs ih =>
      obtain ⟨xL, xR⟩ := x
      simp [bufAdd, zeroBuf, List.replicate] at ih ⊢
      exact ih

theorem bufAdd_comm : ∀ (a b : List (ℚ × ℚ)), bufAdd a b = bufAdd b a := by
  intro a
  induction a with
  | nil => intro b; cases b <;> rfl
  | cons x xs ih =>
      intro b
      cases b with
      | nil => rfl
      | cons y ys =>
          obtain ⟨xL, xR⟩ := x
          obtain ⟨yL, yR⟩ := y
          simp [bufAdd] at ih ⊢
          refine ⟨⟨by ring, by ring⟩, ?_⟩
          simpa [bufAdd] using ih ys

end RatLemmas

section RenderLemmas

/-- The mix-buffer component of `render_source_default` (the source
component is its first projection). -/
def renderBuf (source : SoundSource ℚ) (listener : Listener ℚ)
    (distance_model : DistanceModel) (mix_buffer : List (ℚ × ℚ)) :
    List (ℚ × ℚ) :=
  (render_source_default source listener distance_model mix_buffer).2

theorem renderBuf_eq (s : SoundSource ℚ) (L : Listener ℚ)
    (dm : DistanceModel) (buf : List (ℚ × ℚ)) :
    renderBuf s L dm buf =
      mixLoop (s.genericOf.last_left_gain.getD (targetGains s L dm).1)
        (s.genericOf.last_right_gain.getD (targetGains s L dm).2)
        (targetGains s L dm).1 (targetGains s L dm).2
        (1 / (buf.length : ℚ)) 0 buf s.genericOf.frame_samples := by
  cases s <;> rfl

theorem renderBuf_length (s : SoundSource ℚ) (L : Listener ℚ)
    (dm : DistanceModel) (buf : List (ℚ × ℚ)) :
    (renderBuf s L dm buf).length = buf.length := by
  rw [renderBuf_eq]
  exact mixLoop_length _ _ _ _ _ _ _ _

theorem renderBuf_bufAdd (s : SoundSource ℚ) (L : Listener ℚ)
    (dm : DistanceModel) (b z : List (ℚ × ℚ)) (h : b.length = z.length) :
    renderBuf s L dm (bufAdd b z) = bufAdd b (renderBuf s L dm z) := by
  have hlen : (bufAdd b z).length = z.length := by
    simp [bufAdd, h]
  rw [renderBuf_eq, renderBuf_eq, hlen]
  exact mixLoop_bufAdd _ _ _ _ _ _ _ _ _

theorem renderBuf_additive (s : SoundSource ℚ) (L : Listener ℚ)
    (dm : DistanceModel) (buf : List (ℚ × ℚ)) :
    renderBuf s L dm buf = bufAdd buf (renderBuf s L dm (zeroBuf buf.length)) := by
  have hz : (buf.length : Nat) = (zeroBuf buf.length : List (ℚ × ℚ)).length := by
    simp [zeroBuf]
  calc renderBuf s L dm buf
      = renderBuf s L dm (bufAdd buf (zeroBuf buf.length)) := by
        rw [bufAdd_zeroBuf]
    _ = bufAdd buf (renderBuf s L dm (zeroBuf buf.length)) :=
        renderBuf_bufAdd s L dm buf (zeroBuf buf.length) hz

end RenderLemmas

/-- Concrete source for the C1 scenario: frame samples `[1,1,1,1]` on both
channels, stored last gains `0.0`. -/
def c1Src : GenericSource ℚ :=
  { gain := 1, panning := 0,
    frame_samples := [(1, 1), (1, 1), (1, 1), (1, 1)],
    last_left_gain := some 0, last_right_gain := some 0,
    channel_count := 1 }

/-- C1: for a mix buffer of length `N`, start gains `last_left`/`last_right`
and target gains `target_left`/`target_right`, the `i`-th rendered buffer
entry (for every `i` covered by a frame sample) is the input entry
incremented by `lerp(last, target, i / N) * raw[i]` on each channel. -/
theorem c1_interpolated_accumulation (src : GenericSource ℚ)
    (lastL lastR targetL targetR : ℚ) (buf : List (ℚ × ℚ)) (i : Nat)
    (hL : src.last_left_gain = some lastL)
    (hR : src.last_right_gain = some lastR)
    (h1 : i < buf.length) (h2 : i < src.frame_samples.length) :
    ((render_with_params src targetL targetR buf).2)[i]? =
      some ((buf.get ⟨i, h1⟩).1 +
              lerpf lastL targetL ((i : ℚ) / (buf.length : ℚ)) *
                (src.frame_samples.get ⟨i, h2⟩).1,
            (buf.get ⟨i, h1⟩).2 +
              lerpf lastR targetR ((i : ℚ) / (buf.length : ℚ)) *
                (src.frame_samples.get ⟨i, h2⟩).2) := by
  have key := mixLoop_getElem lastL lastR targetL targetR
    (1 / (buf.length : ℚ)) 0 buf src.frame_samples i h1 h2
  have ht : tAfter (1 / (buf.length : ℚ)) 0 i = (i : ℚ) / (buf.length : ℚ) := by
    rw [tAfter_rat]
    ring
  rw [ht] at key
  simpa [render_with_params, hL, hR] using key

/-- Witness for C1, the concrete scenario of the spec: buffer length 4, last
gains 0, target gains 1, raw samples all 1; entry 1 of the output is 1/4,
and the full accumulated output is `[0, 1/4, 1/2, 3/4]` on each channel. -/
theorem c1_witness :
    ((render_with_params c1Src 1 1 (zeroBuf 4)).2)[1]? = some (1/4, 1/4) ∧
    (render_with_params c1Src 1 1 (zeroBuf 4)).2 =
      [(0, 0), (1/4, 1/4), (1/2, 1/2), (3/4, 3/4)] := by
  constructor
  · rw [c1_interpolated_accumulation c1Src 0 0 1 1 (zeroBuf 4) 1 rfl rfl
      (by norm_num [zeroBuf]) (by norm_num [c1Src])]
    norm_num [zeroBuf, List.replicate, c1Src, lerpf, List.get]
  · norm_num [render_with_params, mixLoop, lerpf, zeroBuf, List.replicate, c1Src]

/-- C2: rendering only adds to each buffer entry, and superposition holds:
for any two sources `A` and `B` and a zeroed buffer of length `n`,
rendering `A` then `B`, rendering `B` then `A`, and the elementwise sum of
rendering each alone into a separately-zeroed buffer, all agree. -/
theorem c2_superposition (A B : SoundSource ℚ) (L : Listener ℚ)
    (dm : DistanceModel) (n : Nat) :
    (∀ (s : SoundSource ℚ) (buf : List (ℚ × ℚ)),
        renderBuf s L dm buf = bufAdd buf (renderBuf s L dm (zeroBuf buf.length))) ∧
    renderBuf B L dm (renderBuf A L dm (zeroBuf n)) =
      renderBuf A L dm (renderBuf B L dm (zeroBuf n)) ∧
    renderBuf B L dm (renderBuf A L dm (zeroBuf n)) =
      bufAdd (renderBuf A L dm (zeroBuf n)) (renderBuf B L dm (zeroBuf n)) := by
  have hzlen : ∀ m : Nat, (zeroBuf m : List (ℚ × ℚ)).length = m := by
    intro m; simp [zeroBuf]
  have hstep : ∀ (s : SoundSource ℚ) (buf : List (ℚ × ℚ)),
      renderBuf s L dm buf = bufAdd buf (renderBuf s L dm (zeroBuf buf.length)) :=
    fun s buf => renderBuf_additive s L dm buf
  have hRA : (renderBuf A L dm (zeroBuf n)).length = n := by
    rw [renderBuf_length, hzlen]
  have hRB : (renderBuf B L dm (zeroBuf n)).length = n := by
    rw [renderBuf_length, hzlen]
  have hBA : renderBuf B L dm (renderBuf A L dm (zeroBuf n)) =
      bufAdd (renderBuf A L dm (zeroBuf n)) (renderBuf B L dm (zeroBuf n)) := by
    rw [hstep B (renderBuf A L dm (zeroBuf n)), hRA]
  have hAB : renderBuf A L dm (renderBuf B L dm (zeroBuf n)) =
      bufAdd (renderBuf B L dm (zeroBuf n)) (renderBuf A L dm (zeroBuf n)) := by
    rw [hstep A (renderBuf B L dm (zeroBuf n)), hRB]
  refine ⟨hstep, ?_, hBA⟩
  rw [hBA, hAB, bufAdd_comm]

/-- C3: for a Generic source the default render path computes the target
gains `gain * (1 + panning)` and `gain * (1 - panning)`, feeds exactly
those to the parameterized mixer, and stores them as the new last gains. -/
theorem c3_generic_target_gains (g : GenericSource ℚ) (L : Listener ℚ)
    (dm : DistanceModel) (buf : List (ℚ × ℚ)) :
    (render_source_default (.Generic g) L dm buf).2 =
      (render_with_params g (g.gain * (1 + g.panning))
        (g.gain * (1 - g.panning)) buf).2 ∧
    (render_source_default (.Generic g) L dm buf).1.genericOf.last_left_gain =
      some (g.gain * (1 + g.panning)) ∧
    (render_source_default (.Generic g) L dm buf).1.genericOf.last_right_gain =
      some (g.gain * (1 - g.panning)) := by
  refine ⟨rfl, rfl, rfl⟩

/-- C4: for a Spatial source the default render path combines
`gain = distance_gain * generic_gain` with the directional panning from the
listener, applies the Generic left/right formula, feeds exactly those
target gains to the parameterized mixer, and stores them. -/
theorem c4_spatial_target_gains (sp : SpatialSource ℚ) (L : Listener ℚ)
    (dm : DistanceModel) (buf : List (ℚ × ℚ)) :
    (render_source_default (.Spatial sp) L dm buf).2 =
      (render_with_params sp.generic
        ((sp.get_distance_gain L dm * sp.generic.gain) * (1 + sp.get_panning L))
        ((sp.get_distance_gain L dm * sp.generic.gain) * (1 - sp.get_panning L))
        buf).2 ∧
    (render_source_default (.Spatial sp) L dm buf).1.genericOf.last_left_gain =
      some ((sp.get_distance_gain L dm * sp.generic.gain) * (1 + sp.get_panning L)) ∧
    (render_source_default (.Spatial sp) L dm buf).1.genericOf.last_right_gain =
      some ((sp.get_distance_gain L dm * sp.generic.gain) * (1 - sp.get_panning L)) := by
  refine ⟨rfl, rfl, rfl⟩

/-- C5: on the first render call of a source (both stored last gains absent),
the interpolation start defaults to the just-computed target gains, so the
output equals flat application of the target gains. -/
theorem c5_first_render_flat (src : GenericSource ℚ) (lg rg : ℚ)
    (buf : List (ℚ × ℚ))
    (hL : src.last_left_gain = none) (hR : src.last_right_gain = none) :
    (render_with_params src lg rg buf).2 = flatMix lg rg buf src.frame_samples := by
  simp only [render_with_params, hL, hR, Option.getD_none]
  exact mixLoop_flat lg rg _ 0 buf src.frame_samples

/-- Concrete first-render source for the C5 witness: no stored last gains. -/
def c5Src : GenericSource ℚ :=
  { gain := 2, panning := 0,
    frame_samples := [(1, 1), (2, 2)],
    last_left_gain := none, last_right_gain := none,
    channel_count := 1 }

/-- Witness for C5: a first render with target gains 3 and 4 over samples
`[(1,1),(2,2)]` yields the flat mix, concretely `[(3,4),(6,8)]`. -/
theorem c5_witness :
    (render_with_params c5Src 3 4 (zeroBuf 2)).2 =
      flatMix 3 4 (zeroBuf 2) c5Src.frame_samples ∧
    (render_with_params c5Src 3 4 (zeroBuf 2)).2 = [(3, 4), (6, 8)] := by
  refine ⟨c5_first_render_flat c5Src 3 4 (zeroBuf 2) rfl rfl, ?_⟩
  norm_num [render_with_params, mixLoop, lerpf, zeroBuf, List.replicate, c5Src]

/-- C6: after every default render call, on either variant, the stored
last gains of the source exactly equal the computed target gains of this
tick. -/
theorem c6_last_gain_postcondition (s : SoundSource ℚ) (L : Listener ℚ)
    (dm : DistanceModel) (buf : List (ℚ × ℚ)) :
    (render_source_default s L dm buf).1.genericOf.last_left_gain =
      some (targetGains s L dm).1 ∧
    (render_source_default s L dm buf).1.genericOf.last_right_gain =
      some (targetGains s L dm).2 := by
  cases s <;> exact ⟨rfl, rfl⟩

/-- C7: steady state: if the stored last gains of a source equal the
target gains of this tick, interpolation has no effect and the rendered output equals
flat-gain mixing with that constant gain. -/
theorem c7_steady_state (s : SoundSource ℚ) (L : Listener ℚ)
    (dm : DistanceModel) (buf : List (ℚ × ℚ))
    (hL : s.genericOf.last_left_gain = some (targetGains s L dm).1)
    (hR : s.genericOf.last_right_gain = some (targetGains s L dm).2) :
    (render_source_default s L dm buf).2 =
      flatMix (targetGains s L dm).1 (targetGains s L dm).2 buf
        s.genericOf.frame_samples := by
  have h := renderBuf_eq s L dm buf
  rw [renderBuf] at h
  rw [h, hL, hR, Option.getD_some, Option.getD_some]
  exact mixLoop_flat _ _ _ 0 buf s.genericOf.frame_samples

/-- Concrete steady-state source for the C7 witness: gain 2, panning 0,
stored last gains equal to the target gains (2, 2). -/
def c7Src : GenericSource ℚ :=
  { gain := 2, panning := 0,
    frame_samples := [(1, 1), (1, 1)],
    last_left_gain := some 2, last_right_gain := some 2,
    channel_count := 1 }

/-- A fixed listener for witnesses involving the default render path. -/
def cListener : Listener ℚ :=
  { position := (0, 0, 0), orientation := (0, 0, 1) }

/-- Witness for C7: a Generic source with unchanged target gains renders as
flat-gain mixing, concretely `[(2,2),(2,2)]`. -/
theorem c7_witness :
    (render_source_default (.Generic c7Src) cListener .LinearDistance
        (zeroBuf 2)).2 =
      flatMix (targetGains (.Generic c7Src) cListener .LinearDistance).1
        (targetGains (.Generic c7Src) cListener .LinearDistance).2
        (zeroBuf 2) (SoundSource.Generic c7Src).genericOf.frame_samples ∧
    (render_source_default (.Generic c7Src) cListener .LinearDistance
        (zeroBuf 2)).2 = [(2, 2), (2, 2)] := by
  refine ⟨c7_steady_state (.Generic c7Src) cListener .LinearDistance (zeroBuf 2)
      (by norm_num [SoundSource.genericOf, targetGains, c7Src])
      (by norm_num [SoundSource.genericOf, targetGains, c7Src]), ?_⟩
  norm_num [render_source_default, render_with_params, mixLoop, lerpf, zeroBuf,
    List.replicate, c7Src]

/-- C8: with the HrtfRenderer variant active, a source that is not
single-channel is routed through the default path, never through the
convolution engine, and its output is exactly the output of the default path. -/
theorem c8_hrtf_stereo_fallback (h : HrtfRenderer ℚ) (s : SoundSource ℚ)
    (L : Listener ℚ) (dm : DistanceModel) (buf : List (ℚ × ℚ))
    (hs : s.genericOf.channel_count ≠ 1) :
    render_source (.HrtfRenderer h) s L dm buf =
      (.defaultPath, render_source_default s L dm buf) := by
  simp [render_source, hs]

/-- A degenerate convolution engine for the C8 witness: it would produce a
silent, empty buffer, so any non-silent output proves it was not used. -/
def c8Hrtf : HrtfRenderer ℚ :=
  { process := fun s _ _ _ => (s, []) }

/-- A stereo (two-channel) source for the C8 witness. -/
def c8Src : GenericSource ℚ :=
  { gain := 1, panning := 0,
    frame_samples := [(1, 1)],
    last_left_gain := none, last_right_gain := none,
    channel_count := 2 }

/-- Witness for C8: with HRTF active, the stereo source is rendered by the
default path and produces the non-silent output `[(1,1)]`, not the
empty buffer of the degenerate engine. -/
theorem c8_witness :
    render_source (.HrtfRenderer c8Hrtf) (.Generic c8Src) cListener
        .LinearDistance (zeroBuf 1) =
      (.defaultPath,
        render_source_default (.Generic c8Src) cListener .LinearDistance
          (zeroBuf 1)) ∧
    (render_source (.HrtfRenderer c8Hrtf) (.Generic c8Src) cListener
        .LinearDistance (zeroBuf 1)).2.2 = [(1, 1)] := by
  refine ⟨c8_hrtf_stereo_fallback c8Hrtf (.Generic c8Src) cListener
      .LinearDistance (zeroBuf 1)
      (by norm_num [SoundSource.genericOf, c8Src]), ?_⟩
  norm_num [render_source, render_source_default, render_with_params, mixLoop,
    lerpf, zeroBuf, List.replicate, c8Src, SoundSource.genericOf]

/-- C10: if the source yields fewer frame samples than the buffer length,
the default render path leaves every buffer entry at an index at or past
the frame-sample count unchanged, and the output depends only on the first
`buf.length` frame samples (at most one sample is consumed per entry). -/
theorem c10_partial_frame (src : GenericSource ℚ) (lg rg : ℚ)
    (buf : List (ℚ × ℚ)) (i : Nat)
    (hk : src.frame_samples.length ≤ i) :
    ((render_with_params src lg rg buf).2)[i]? = buf[i]? ∧
    (render_with_params
        { src with frame_samples := src.frame_samples.take buf.length }
        lg rg buf).2 =
      (render_with_params src lg rg buf).2 := by
  constructor
  · simp only [render_with_params]
    exact mixLoop_getElem_of_ge _ _ _ _ _ 0 buf src.frame_samples i hk
  · simp only [render_with_params]
    exact (mixLoop_take _ _ _ _ _ 0 buf src.frame_samples).symm

/-- A source yielding a single frame sample for the C10 witness. -/
def c10Src : GenericSource ℚ :=
  { gain := 1, panning := 0,
    frame_samples := [(5, 5)],
    last_left_gain := none, last_right_gain := none,
    channel_count := 1 }

/-- Witness for C10: one frame sample into a length-2 buffer leaves entry 1
unchanged (concretely `(3,4)`), and truncating the samples to the buffer
length does not change the output. -/
theorem c10_witness :
    ((render_with_params c10Src 2 3 [(1, 2), (3, 4)]).2)[1]? =
      [((1 : ℚ), (2 : ℚ)), (3, 4)][1]? ∧
    (render_with_params
        { c10Src with frame_samples := c10Src.frame_samples.take 2 }
        2 3 [(1, 2), (3, 4)]).2 =
      (render_with_params c10Src 2 3 [(1, 2), (3, 4)]).2 := by
  have h := c10_partial_frame c10Src 2 3 [(1, 2), (3, 4)] 1
    (by norm_num [c10Src])
  exact ⟨h.1, h.2⟩

theorem FSample.add_def (a b : FSample) : a + b = FSample.add a b := rfl

theorem FSample.sub_def (a b : FSample) : a - b = FSample.sub a b := rfl

theorem FSample.mul_def (a b : FSample) : a * b = FSample.mul a b := rfl

theorem FSample.div_def (a b : FSample) : a / b = FSample.div a b := rfl

theorem FSample.zero_def : (0 : FSample) = FSample.fin 0 := rfl

theorem FSample.one_def : (1 : FSample) = FSample.fin 1 := rfl

theorem FSample.natCast_def (n : Nat) : (n : FSample) = FSample.fin n := rfl

/-- C9: the default render path is total and propagating on arbitrary
IEEE-style sample values, NaN and infinities included, and on an empty mix
buffer: for every input it produces a buffer of the same length, each entry
covered by a frame sample carries the accumulated value computed from
whatever numeric values were received, and every other entry is returned
unchanged — no input is rejected or skipped. -/
theorem c9_total_and_propagates (src : GenericSource FSample)
    (lg rg : FSample) (buf : List (FSample × FSample)) :
    ((render_with_params src lg rg buf).2).length = buf.length ∧
    (∀ (i : Nat) (h1 : i < buf.length) (h2 : i < src.frame_samples.length),
      ((render_with_params src lg rg buf).2)[i]? =
        some ((buf.get ⟨i, h1⟩).1 +
                lerpf (src.last_left_gain.getD lg) lg
                  (tAfter (1 / (buf.length : FSample)) 0 i) *
                  (src.frame_samples.get ⟨i, h2⟩).1,
              (buf.get ⟨i, h1⟩).2 +
                lerpf (src.last_right_gain.getD rg) rg
                  (tAfter (1 / (buf.length : FSample)) 0 i) *
                  (src.frame_samples.get ⟨i, h2⟩).2)) ∧
    (∀ (i : Nat), src.frame_samples.length ≤ i →
      ((render_with_params src lg rg buf).2)[i]? = buf[i]?) := by
  refine ⟨?_, ?_, ?_⟩
  · simp only [render_with_params]
    exact mixLoop_length _ _ _ _ _ 0 buf src.frame_samples
  · intro i h1 h2
    simp only [render_with_params]
    exact mixLoop_getElem _ _ _ _ _ 0 buf src.frame_samples i h1 h2
  · intro i hge
    simp only [render_with_params]
    exact mixLoop_getElem_of_ge _ _ _ _ _ 0 buf src.frame_samples i hge

/-- A source carrying non-finite sample data for the C9 witness: its single
frame sample is `(NaN, +∞)` and its stored last gains are absent. -/
def c9Src : GenericSource FSample :=
  { gain := .fin 1, panning := .fin 0,
    frame_samples := [(.nan, .inf true)],
    last_left_gain := none, last_right_gain := none,
    channel_count := 1 }

/-- Witness for C9: rendering the `(NaN, +∞)` sample with a NaN left target
gain completes, keeps the buffer length, and propagates the non-finite
values: the single output entry is `(NaN, +∞)`.  An empty mix buffer also
renders to an empty buffer. -/
theorem c9_witness :
    ((render_with_params c9Src .nan (.fin 2)
        [((FSample.fin 0), (FSample.fin 0))]).2).length = 1 ∧
    ((render_with_params c9Src .nan (.fin 2)
        [((FSample.fin 0), (FSample.fin 0))]).2)[0]? =
      some (FSample.nan, FSample.inf true) ∧
    (render_with_params c9Src .nan (.fin 2) ([] : List (FSample × FSample))).2
      = [] := by
  have h := c9_total_and_propagates c9Src .nan (.fin 2)
    [((FSample.fin 0), (FSample.fin 0))]
  have hempty := (c9_total_and_propagates c9Src .nan (.fin 2)
    ([] : List (FSample × FSample))).1
  refine ⟨h.1, ?_, List.length_eq_zero.mp hempty⟩
  rw [h.2.1 0 (by norm_num) (by norm_num [c9Src])]
  norm_num [c9Src, lerpf, tAfter, List.get, FSample.add_def, FSample.sub_def,
    FSample.mul_def, FSample.div_def, FSample.zero_def, FSample.one_def,
    FSample.natCast_def, FSample.add, FSample.sub, FSample.mul, FSample.div,
    FSample.neg]
